import Mathlib

/-!
Verification of the waypipe server-side session supervisor (src/src/server.c)
and the fd-mirroring test harness (src/test/fd_mirror.c) against their
natural-language specification. The C functions are shallowly embedded as
executable Lean definitions; machine integers are Nat with explicit
reduction modulo 2 ^ 32 where 32-bit overflow matters, byte strings are
List Char, and fallible operations return Option.
-/

namespace Waypipe

/-! ## Connection tokens (server.c lines 42-70, struct connection_token) -/

/-- Modelled from the spec: the constants WAYPIPE_PROTOCOL_VERSION,
CONN_FIXED_BIT, CONN_UPDATE_BIT and CONN_RECONNECTABLE_BIT are defined in
main.h, which is not among the repository files. The spec describes the
32-bit header as (version<<16) | flags | FIXED with single-bit UPDATE and
RECONNECTABLE flags, so the constants are kept as parameters of the model. -/
structure TokenBits where
  version : Nat
  fixed_bit : Nat
  update_bit : Nat
  reconnectable_bit : Nat

/-- Shallow embedding of conntoken_header (server.c lines 42-47); the
result is a uint32_t, hence the reduction modulo 2 ^ 32. -/
def conntoken_header (tb : TokenBits) (reconnectable update : Bool) : Nat :=
  ((tb.version <<< 16) ||| (if update then tb.update_bit else 0) |||
      (if reconnectable then tb.reconnectable_bit else 0) ||| tb.fixed_bit) % 2 ^ 32

/-- The header formula exactly as the spec words it: the bitwise-or of the
protocol version shifted left 16 bits, the UPDATE bit when update is true,
the RECONNECTABLE bit when reconnectable is true, and the FIXED
discriminator bit. Stated without machine truncation, to be compared with
the embedded conntoken_header. -/
def conntoken_header_spec (tb : TokenBits) (reconnectable update : Bool) : Nat :=
  (tb.version <<< 16) ||| (if update then tb.update_bit else 0) |||
    (if reconnectable then tb.reconnectable_bit else 0) ||| tb.fixed_bit

/-- Shallow embedding of struct connection_token: a 32-bit header and three
32-bit key words. -/
structure connection_token where
  header : Nat
  key : Nat × Nat × Nat
deriving DecidableEq

/-- The token first written on a fresh channel: run_single_server
(server.c lines 174-179) and run_multi_server (lines 362-364, 412) build it
as conntoken_header(reconnectable, false) over a freshly filled key. -/
def fresh_token (tb : TokenBits) (reconnectable : Bool)
    (key : Nat × Nat × Nat) : connection_token :=
  { header := conntoken_header tb reconnectable false, key := key }

/-- Setting the UPDATE bit on a token, as done by token.header |=
CONN_UPDATE_BIT in run_single_server (line 204) and update_connections
(line 321); the key words are untouched. -/
def flag_token (tb : TokenBits) (t : connection_token) : connection_token :=
  { t with header := (t.header ||| tb.update_bit) % 2 ^ 32 }

/-! ## read_sockaddr and the single-server reconnector (server.c 72-158) -/

/-- Modelled from the spec: sizeof(sockaddr_un.sun_path), the system limit
on a Unix socket path; struct sockaddr_un comes from the system headers,
not from the repository files. On Linux it is 108 bytes. -/
def sun_path_size : Nat := 108

/-- Size of the local buffer char path[4096] in read_sockaddr; the read
call is capped at read_sockaddr_bufsize - 1 bytes. -/
def read_sockaddr_bufsize : Nat := 4096

/-- Bytes up to the first NUL: after path[amt] = 0, what strlen(path)
measures and strcpy copies. -/
def cstring_of_read (buf : List Char) : List Char :=
  buf.takeWhile (fun c => c != '\x00')

/-- Shallow embedding of read_sockaddr (server.c lines 72-93). buf is the
byte sequence the read call delivered; the result is the sun_path contents
on success and none when the path is rejected as too long. -/
def read_sockaddr (buf : List Char) : Option (List Char) :=
  let path := cstring_of_read buf
  if sun_path_size ≤ path.length then none else some path

/-- Outcome of one handling of a readable control pipe inside
run_single_server_reconnector (server.c lines 123-153). -/
inductive ReconAction where
  | exit_failure : ReconAction
  | continue_loop : ReconAction
  | delivered : ReconAction
deriving DecidableEq

/-- Shallow embedding of the POLLIN branch of run_single_server_reconnector
(server.c lines 123-153): buf is what read returned from the control pipe;
the booleans are the outcomes of connect_to_socket, the token write, and
send_one_fd. exit_failure models retcode = EXIT_FAILURE followed by break;
continue_loop models logging and re-entering the poll loop. -/
def reconnector_handle_input (buf : List Char)
    (connect_ok write_ok send_ok : Bool) : ReconAction :=
  match read_sockaddr buf with
  | none => ReconAction.exit_failure
  | some _ =>
      if !connect_ok then ReconAction.continue_loop
      else if !write_ok then ReconAction.continue_loop
      else if !send_ok then ReconAction.continue_loop
      else ReconAction.delivered

/-! ## setup_login_shell_command (server.c lines 440-474) -/

/-- The backwards slash scan of setup_login_shell_command (server.c lines
462-468): starting from the last index, C variable start ends one past the
last '/' of the string; when the string has no '/' the loop leaves
start = -1, modelled as none. -/
def shell_basename_start (s : List Char) : Nat → Option Nat
  | 0 => none
  | n + 1 => if s[n]? = some '/' then some (n + 1) else shell_basename_start s n

/-- Written from the spec words: the basename of a path, the suffix after
the last '/' (the longest slash-free suffix). Used to compare the embedded
backwards scan against the spec. -/
def shell_basename (s : List Char) : List Char :=
  (s.reverse.takeWhile (fun c => c != '/')).reverse

/-- Shallow embedding of setup_login_shell_command (server.c lines
441-474), returning the pair (shell, shellname). shell_env is
getenv("SHELL") as a byte string. When the value has no '/' and a login
shell is requested, the C loop leaves start = -1 and strcpy reads from
shell - 1, one byte before the buffer: pre models that byte (none = a zero
byte there), making the out-of-range read explicit in the model. -/
def setup_login_shell_command (pre : Option Char) (shell_env : Option (List Char))
    (login_shell : Bool) : List Char × List Char :=
  match shell_env with
  | none => ("/bin/sh".data, "-sh".data)
  | some env =>
      if 254 ≤ env.length then ("/bin/sh".data, "-sh".data)
      else if login_shell then
        match shell_basename_start env env.length with
        | some start => (env, '-' :: env.drop start)
        | none =>
            match pre with
            | none => (env, ['-'])
            | some c => (env, '-' :: c :: env)
      else (env, env)

/-! ## update_connections (server.c lines 307-344) -/

/-- Shallow embedding of struct conn_addr: the per-connection record the
multi-mode supervisor keeps, {token, pid, linkfd}. -/
structure conn_addr where
  token : connection_token
  pid : Nat
  linkfd : Nat
deriving DecidableEq

/-- Whether all three steps of update_connections succeed for record i:
connect_to_socket, the token write, and send_one_fd. -/
def step_ok (cok wok sok : Nat → Bool) (i : Nat) : Bool :=
  cok i && wok i && sok i

/-- The loop of update_connections (server.c lines 312-336) over the
remaining records, i being the index of the first of them. Returns the
index of the first failing record (none when all succeed) together with
the list of (index, token) pairs actually delivered: a record receives the
flagged copy of its own token over a freshly connected channel. -/
def update_go (tb : TokenBits) (cok wok sok : Nat → Bool) :
    Nat → List conn_addr → Option Nat × List (Nat × connection_token)
  | _, [] => (none, [])
  | i, r :: rs =>
      if cok i = false then (some i, [])
      else if wok i = false then (some i, [])
      else if sok i = false then (some i, [])
      else
        let t := update_go tb cok wok sok (i + 1) rs
        (t.1, (i, flag_token tb r.token) :: t.2)

/-- What update_connections leaves behind: the first failing index, the
delivered tokens, whether current_sockaddr was overwritten with the new
address, the resulting current address, and whether the old display-socket
path was unlinked. -/
structure UpdateOutcome where
  failed_at : Option Nat
  sent : List (Nat × connection_token)
  addr_adopted : Bool
  current_addr : List Char
  old_unlinked : Bool
deriving DecidableEq

/-- Shallow embedding of update_connections (server.c lines 307-344). On
any step failure it returns -1 immediately (failed_at = some i); only when
every record succeeded does it adopt the new sockaddr, unlinking the old
path when unlink_at_end holds and the paths differ. -/
def update_connections (tb : TokenBits) (cok wok sok : Nat → Bool)
    (records : List conn_addr) (unlink_at_end : Bool)
    (old_addr new_addr : List Char) : UpdateOutcome :=
  let t := update_go tb cok wok sok 0 records
  { failed_at := t.1
    sent := t.2
    addr_adopted := t.1.isNone
    current_addr := if t.1.isNone then new_addr else old_addr
    old_unlinked := t.1.isNone && unlink_at_end && (old_addr != new_addr) }

/-! ## handle_new_server_connection (server.c lines 224-305) -/

/-- Result of handle_new_server_connection: the return code, the connection
table afterwards, and whether a link socketpair was created. -/
structure NewConnResult where
  rc : Int
  connmap : List conn_addr
  socketpair_created : Bool
deriving DecidableEq

/-- Shallow embedding of handle_new_server_connection (server.c lines
224-305). reconnectable is control_pipe != -1; the booleans are the
outcomes of buf_ensure_size, connect_to_socket, the token write, the
socketpair call and fork. A connection record is appended, and a link
socketpair created, only on the reconnectable path. -/
def handle_new_server_connection (reconnectable : Bool)
    (alloc_ok connect_ok write_ok socketpair_ok fork_ok : Bool)
    (connmap : List conn_addr) (new_token : connection_token)
    (npid linkfd : Nat) : NewConnResult :=
  if reconnectable && !alloc_ok then ⟨-1, connmap, false⟩
  else if !connect_ok then ⟨-1, connmap, false⟩
  else if !write_ok then ⟨-1, connmap, false⟩
  else if reconnectable && !socketpair_ok then ⟨-1, connmap, false⟩
  else if !fork_ok then ⟨-1, connmap, reconnectable⟩
  else
    ⟨0,
      if reconnectable then
        connmap ++ [{ token := new_token, pid := npid, linkfd := linkfd }]
      else connmap,
      reconnectable⟩

/-! ## The five-pass mirror test (test/fd_mirror.c lines 62-87, 295-361) -/

/-- Direction of pass i of test_mirror (fd_mirror.c line 324): the C
expression i == 0 || i % 2, true meaning forward (source to sink). -/
def pass_forward (i : Nat) : Bool :=
  i == 0 || i % 2 != 0

/-- Bytes reported changed for pass i (fd_mirror.c lines 330-331): pass 0
uses the whole object size, later passes use what the update callback
returned. -/
def pass_ndiff (i sz upd : Nat) : Nat :=
  if i = 0 then sz else upd

/-- Shallow embedding of update_file (fd_mirror.c lines 62-87): r0 is the
rand() draw deciding the 1-in-11 no-op, r1 and r2 the range draws; the
result is the new contents and the returned ndiff. memset stores the pass
index as a byte, hence seqno % 256. -/
def update_file (r0 r1 r2 sz seqno : Nat) (data : List Nat) : List Nat × Nat :=
  if r0 % 11 = 0 then (data, 0)
  else
    let s := r1 % sz
    let e := r2 % sz
    let lo := min s e
    let hi := max s e
    (data.mapIdx (fun i b => if lo ≤ i ∧ i < hi then seqno % 256 else b), hi - lo)

/-- The pass loop of test_mirror (fd_mirror.c lines 323-354) with the
subsystem outcomes abstracted: update_fail i tells whether the update
callback returned -1 on pass i (never consulted for pass 0, which uses the
whole size), match_ok i whether the transfer succeeded and check_match
found the two resources byte-equal after pass i. The second argument is
the remaining fuel 5 - i. -/
def test_mirror_loop (update_fail match_ok : Nat → Bool) : Nat → Nat → Bool
  | _, 0 => true
  | i, n + 1 =>
      if (i != 0) && update_fail i then false
      else if match_ok i then test_mirror_loop update_fail match_ok (i + 1) n
      else false

/-- The five passes of test_mirror: the loop from pass 0 with fuel 5. -/
def test_mirror_passes (update_fail match_ok : Nat → Bool) : Bool :=
  test_mirror_loop update_fail match_ok 0 5

/-! ## wait_for_thread_pool (test/fd_mirror.c lines 200-236) -/

/-- Task kinds as wait_for_thread_pool distinguishes them: the TASK_STOP
sentinel versus any runnable task. -/
inductive TaskType where
  | stop : TaskType
  | work : TaskType
deriving DecidableEq

/-- The thread-pool fields wait_for_thread_pool reads under the mutex: the
task queue (an unbounded array, modelled as a function from index), the
queue_start and queue_end cursors, and the queue_in_progress counter. -/
structure pool_state where
  queue : Nat → TaskType
  queue_start : Nat
  queue_end : Nat
  queue_in_progress : Nat

/-- The termination test of wait_for_thread_pool (fd_mirror.c lines
212-213): queue_end == queue_start && queue_in_progress == 0. -/
def wfp_done (s : pool_state) : Bool :=
  (s.queue_end == s.queue_start) && (s.queue_in_progress == 0)

/-- The steal step of wait_for_thread_pool (fd_mirror.c lines 214-221),
performed under the mutex: when the queue is nonempty and the front task
is not TASK_STOP, remove it from the front and increment
queue_in_progress; otherwise leave the state unchanged. -/
def wfp_scan (s : pool_state) : pool_state × Option TaskType :=
  if s.queue_start < s.queue_end then
    if s.queue s.queue_start ≠ TaskType.stop then
      ({ s with
          queue_start := s.queue_start + 1
          queue_in_progress := s.queue_in_progress + 1 },
        some (s.queue s.queue_start))
    else (s, none)
  else (s, none)

/-- After running a stolen task inline, queue_in_progress is decremented
back (fd_mirror.c lines 227-229). -/
def wfp_run_finish (s : pool_state) : pool_state :=
  { s with queue_in_progress := s.queue_in_progress - 1 }

/-- One full iteration of the wait_for_thread_pool loop body: compute done,
optionally steal and run one task. Returns the done flag read under the
mutex and the pool state afterwards. -/
def wfp_iter (s : pool_state) : Bool × pool_state :=
  (wfp_done s,
    match (wfp_scan s).2 with
    | some _ => wfp_run_finish (wfp_scan s).1
    | none => (wfp_scan s).1)

/-- The wait_for_thread_pool loop, with worker-thread interference modelled
as an arbitrary state transformation f applied before each lock
acquisition, and bounded fuel. The result is some s where s is the state
observed under the mutex at the final iteration, or none when the fuel
runs out before the loop exits. -/
def wfp_loop (f : Nat → pool_state → pool_state) :
    Nat → pool_state → Option pool_state
  | 0, _ => none
  | n + 1, s =>
      let s1 := f n s
      if (wfp_iter s1).1 then some s1 else wfp_loop f n (wfp_iter s1).2

/-! ## Helper lemmas -/

theorem cstring_of_read_append_nul (l rest : List Char) (h : '\x00' ∉ l) :
    cstring_of_read (l ++ '\x00' :: rest) = l := by
  unfold cstring_of_read
  rw [List.takeWhile_append_of_pos ?_]
  · simp [List.takeWhile_cons]
  · intro a ha
    simp only [bne_iff_ne, ne_eq]
    rintro rfl
    exact h ha

/-! ## Claim C5: the connection-token header formula -/

/-- Claim C5: for every pair of booleans (reconnectable, update),
conntoken_header equals the bitwise-or of the protocol version shifted
left 16 bits, the UPDATE bit when update is true, the RECONNECTABLE bit
when reconnectable is true, and the FIXED discriminator bit — here under
the spec assumption that the version and all three flag constants fit in
the low 16 bits, so that the uint32_t truncation is the identity. -/
theorem conntoken_header_matches_spec (tb : TokenBits) (r u : Bool)
    (hv : tb.version < 2 ^ 16) (hf : tb.fixed_bit < 2 ^ 16)
    (hu : tb.update_bit < 2 ^ 16) (hr : tb.reconnectable_bit < 2 ^ 16) :
    conntoken_header tb r u = conntoken_header_spec tb r u := by
  have h16 : (2 : Nat) ^ 16 ≤ 2 ^ 32 := Nat.pow_le_pow_right (by norm_num) (by norm_num)
  have hsh : tb.version <<< 16 < 2 ^ 32 := by
    rw [Nat.shiftLeft_eq]
    calc tb.version * 2 ^ 16 ≤ (2 ^ 16 - 1) * 2 ^ 16 :=
          Nat.mul_le_mul_right _ (by omega)
      _ < 2 ^ 32 := by norm_num
  have hor : conntoken_header_spec tb r u < 2 ^ 32 := by
    unfold conntoken_header_spec
    refine Nat.or_lt_two_pow (Nat.or_lt_two_pow (Nat.or_lt_two_pow hsh ?_) ?_)
      (lt_of_lt_of_le hf h16)
    · have hle : (if u = true then tb.update_bit else 0) ≤ tb.update_bit := by
        split <;> omega
      exact lt_of_le_of_lt hle (lt_of_lt_of_le hu h16)
    · have hle : (if r = true then tb.reconnectable_bit else 0) ≤ tb.reconnectable_bit := by
        split <;> omega
      exact lt_of_le_of_lt hle (lt_of_lt_of_le hr h16)
  unfold conntoken_header
  exact Nat.mod_eq_of_lt hor

/-- Witness for C5 at a concrete bit layout. -/
theorem conntoken_header_matches_spec_witness :
    conntoken_header ⟨1, 1, 4, 8⟩ true false =
      conntoken_header_spec ⟨1, 1, 4, 8⟩ true false :=
  conntoken_header_matches_spec ⟨1, 1, 4, 8⟩ true false (by norm_num) (by norm_num)
    (by norm_num) (by norm_num)

/-! ## Claim C4: UPDATE flag clear on fresh tokens, set on replacements -/

/-- Claim C4: the token written on the original (fresh) channel has the
UPDATE flag clear; every token written on a replacement channel — built by
the single-server reconnector and by update_connections as the flagged
copy of the original token — has the UPDATE flag set and its three key
words identical to the original. u is the position of the UPDATE bit; by
the spec it lies in the low 16 bits and neither FIXED nor RECONNECTABLE
occupies it. -/
theorem connection_token_update_invariant (tb : TokenBits) (u : Nat) (r : Bool)
    (key : Nat × Nat × Nat) (t : connection_token)
    (hu : u < 16) (hub : tb.update_bit.testBit u = true)
    (hfb : tb.fixed_bit.testBit u = false)
    (hrb : tb.reconnectable_bit.testBit u = false) :
    (fresh_token tb r key).header.testBit u = false ∧
    (flag_token tb (fresh_token tb r key)).header.testBit u = true ∧
    (flag_token tb t).key = t.key ∧
    (fresh_token tb r key).key = key := by
  have hu32 : u < 32 := by omega
  have h1 : Nat.testBit (tb.version <<< 16) u = false := by
    rw [Nat.testBit_shiftLeft]
    simp [Nat.not_le.mpr hu]
  refine ⟨?_, ?_, rfl, rfl⟩
  · simp only [fresh_token, conntoken_header, Nat.testBit_mod_two_pow,
      Nat.testBit_or, h1, hfb, if_false]
    cases r <;> simp [hrb, hu32]
  · show (((fresh_token tb r key).header ||| tb.update_bit) % 2 ^ 32).testBit u = true
    rw [Nat.testBit_mod_two_pow, Nat.testBit_or]
    simp [hub, hu32]

/-- Witness for C4 at a concrete bit layout (UPDATE bit = bit 2). -/
theorem connection_token_update_invariant_witness :
    (fresh_token ⟨1, 1, 4, 8⟩ true (1, 2, 3)).header.testBit 2 = false ∧
    (flag_token ⟨1, 1, 4, 8⟩ (fresh_token ⟨1, 1, 4, 8⟩ true (1, 2, 3))).header.testBit 2 = true ∧
    (flag_token ⟨1, 1, 4, 8⟩ ⟨9, (5, 6, 7)⟩).key = (5, 6, 7) ∧
    (fresh_token ⟨1, 1, 4, 8⟩ true (1, 2, 3)).key = (1, 2, 3) :=
  connection_token_update_invariant ⟨1, 1, 4, 8⟩ 2 true (1, 2, 3) ⟨9, (5, 6, 7)⟩
    (by norm_num) (by decide) (by decide) (by decide)

/-! ## Claim C6: read_sockaddr -/

/-- Counterexample to C6 as stated: a newline does not terminate the path;
it is copied into sun_path as part of it. -/
theorem read_sockaddr_newline_not_terminator :
    read_sockaddr ['a', '\n'] = some ['a', '\n'] ∧
    read_sockaddr ['a', '\n'] ≠ some ['a'] := by decide

/-- Claim C6 as amended: read_sockaddr reads at most 4095 bytes per call,
the first embedded NUL (and only NUL — newline is not special) terminates
the path, every path of length at least sun_path_size is rejected with -1,
and every shorter path is copied into sun_path with return 0. -/
theorem read_sockaddr_spec (buf : List Char) :
    read_sockaddr_bufsize - 1 = 4095 ∧
    '\x00' ∉ cstring_of_read buf ∧
    (∀ l rest : List Char, '\x00' ∉ l →
      cstring_of_read (l ++ '\x00' :: rest) = l) ∧
    (sun_path_size ≤ (cstring_of_read buf).length → read_sockaddr buf = none) ∧
    ((cstring_of_read buf).length < sun_path_size →
      read_sockaddr buf = some (cstring_of_read buf)) := by
  refine ⟨rfl, ?_, cstring_of_read_append_nul, ?_, ?_⟩
  · intro hmem
    have := List.mem_takeWhile_imp hmem
    simp at this
  · intro h
    simp only [read_sockaddr, if_pos h]
  · intro h
    have h2 : ¬ sun_path_size ≤ (cstring_of_read buf).length := by omega
    simp only [read_sockaddr, if_neg h2]

/-! ## Claim C2: oversized control-FIFO input in the single-server
reconnector -/

/-- Counterexample to C2 as stated: an oversized path does not make the
reconnector continue its poll loop; it exits with failure. -/
theorem reconnector_oversized_not_continue :
    reconnector_handle_input (List.replicate 109 'b') true true true ≠
      ReconAction.continue_loop ∧
    reconnector_handle_input (List.replicate 109 'b') true true true =
      ReconAction.exit_failure := by decide

/-- Claim C2 as amended: in run_single_server_reconnector a control-FIFO
input whose socket path is too long makes the controller exit its loop
with EXIT_FAILURE (so subsequent inputs are not processed); by contrast a
connect failure on a valid path is logged and the loop continues, and a
valid path with all steps succeeding is delivered. -/
theorem reconnector_oversized_input_exits (buf : List Char)
    (cok wok sok : Bool)
    (h : sun_path_size ≤ (cstring_of_read buf).length) :
    reconnector_handle_input buf cok wok sok = ReconAction.exit_failure ∧
    (∀ buf2 : List Char, (cstring_of_read buf2).length < sun_path_size →
      reconnector_handle_input buf2 false wok sok = ReconAction.continue_loop) ∧
    (∀ buf2 : List Char, (cstring_of_read buf2).length < sun_path_size →
      reconnector_handle_input buf2 true true true = ReconAction.delivered) := by
  refine ⟨?_, ?_, ?_⟩
  · simp only [reconnector_handle_input, read_sockaddr, if_pos h]
  · intro buf2 h2
    have h3 : ¬ sun_path_size ≤ (cstring_of_read buf2).length := by omega
    simp only [reconnector_handle_input, read_sockaddr, if_neg h3]
    simp
  · intro buf2 h2
    have h3 : ¬ sun_path_size ≤ (cstring_of_read buf2).length := by omega
    simp only [reconnector_handle_input, read_sockaddr, if_neg h3]
    simp

/-- Witness for C2 (amended) at a concrete oversized input of 108 bytes. -/
theorem reconnector_oversized_input_exits_witness :
    reconnector_handle_input (List.replicate 108 'a') true true true =
      ReconAction.exit_failure ∧
    (∀ buf2 : List Char, (cstring_of_read buf2).length < sun_path_size →
      reconnector_handle_input buf2 false true true = ReconAction.continue_loop) ∧
    (∀ buf2 : List Char, (cstring_of_read buf2).length < sun_path_size →
      reconnector_handle_input buf2 true true true = ReconAction.delivered) :=
  reconnector_oversized_input_exits (List.replicate 108 'a') true true true (by decide)

/-! ## Claims C1 and C9: setup_login_shell_command -/

theorem shell_basename_start_append (xs : List Char) (c : Char) :
    ∀ n, n ≤ xs.length →
      shell_basename_start (xs ++ [c]) n = shell_basename_start xs n := by
  intro n
  induction n with
  | zero => intro _; rfl
  | succ n ih =>
      intro h
      unfold shell_basename_start
      rw [List.getElem?_append_left (by omega)]
      by_cases hc : xs[n]? = some '/'
      · rw [if_pos hc, if_pos hc]
      · rw [if_neg hc, if_neg hc]
        exact ih (by omega)

theorem shell_basename_append_ne (xs : List Char) (c : Char) (hc : c ≠ '/') :
    shell_basename (xs ++ [c]) = shell_basename xs ++ [c] := by
  unfold shell_basename
  have hb : (c != '/') = true := by simpa [bne_iff_ne] using hc
  simp [List.reverse_append, List.takeWhile_cons, hb]

/-- The backward slash scan of the C code agrees with the spec notion of
basename: when it yields none the string has no '/', and when it yields
some k, dropping k characters leaves exactly the suffix after the last
slash. -/
theorem shell_basename_start_spec (s : List Char) :
    (shell_basename_start s s.length = none → '/' ∉ s) ∧
    (∀ k, shell_basename_start s s.length = some k →
      k ≤ s.length ∧ s.drop k = shell_basename s) := by
  induction s using List.reverseRecOn with
  | nil =>
      exact ⟨fun _ => by simp, fun k hk => by simp [shell_basename_start] at hk⟩
  | append_singleton xs c ih =>
      by_cases hc : c = '/'
      · subst hc
        have hscan : shell_basename_start (xs ++ ['/']) ((xs ++ ['/']).length) =
            some (xs.length + 1) := by
          simp only [List.length_append, List.length_singleton]
          unfold shell_basename_start
          rw [List.getElem?_concat_length]
          simp
        constructor
        · intro hnone
          rw [hscan] at hnone
          exact Option.noConfusion hnone
        · intro k hk
          rw [hscan] at hk
          injection hk with hk2
          subst hk2
          refine ⟨by simp, ?_⟩
          have h1 : (xs ++ ['/']).drop (xs.length + 1) = [] :=
            List.drop_eq_nil_iff.mpr (by simp)
          have h2 : shell_basename (xs ++ ['/']) = [] := by
            unfold shell_basename
            simp [List.reverse_append, List.takeWhile_cons]
          rw [h1, h2]
      · have hstep : shell_basename_start (xs ++ [c]) ((xs ++ [c]).length) =
            shell_basename_start xs xs.length := by
          have e1 : (xs ++ [c]).length = xs.length + 1 := by simp
          have e2 : shell_basename_start (xs ++ [c]) (xs.length + 1) =
              if (xs ++ [c])[xs.length]? = some '/' then some (xs.length + 1)
              else shell_basename_start (xs ++ [c]) xs.length := rfl
          rw [e1, e2, List.getElem?_concat_length, if_neg (by simp [hc])]
          exact shell_basename_start_append xs c xs.length (le_refl _)
        constructor
        · intro hnone
          rw [hstep] at hnone
          have hnotin := ih.1 hnone
          intro hmem
          rcases List.mem_append.mp hmem with h | h
          · exact hnotin h
          · simp only [List.mem_singleton] at h
            exact hc h.symm
        · intro k hk
          rw [hstep] at hk
          obtain ⟨hk1, hk2⟩ := ih.2 k hk
          refine ⟨by simp; omega, ?_⟩
          rw [List.drop_append_of_le_length hk1, hk2,
            shell_basename_append_ne xs c hc]

/-- Counterexample to C1 as stated: with $SHELL unset and login-shell not
requested, the code leaves the pre-set default argv[0] = "-sh"; the claim
says argv[0] would be "/bin/sh". -/
theorem setup_login_shell_unset_argv0 :
    setup_login_shell_command none none false = ("/bin/sh".data, "-sh".data) ∧
    "-sh".data ≠ "/bin/sh".data := by decide

/-- Claim C1 as amended: with $SHELL unset, or set to a value of at least
254 bytes, the shell is /bin/sh and argv[0] is "-sh" regardless of the
login-shell flag; with $SHELL set to a shorter value, without login-shell
the pair is the full path twice, and with login-shell, provided the value
contains a '/', argv[0] is '-' followed by the basename (for slash-free
values the C code reads the byte before the buffer, modelled by pre). -/
theorem setup_login_shell_command_cases (pre : Option Char) (env : List Char)
    (login : Bool) :
    (setup_login_shell_command pre none login = ("/bin/sh".data, "-sh".data)) ∧
    (254 ≤ env.length →
      setup_login_shell_command pre (some env) login = ("/bin/sh".data, "-sh".data)) ∧
    (env.length < 254 →
      setup_login_shell_command pre (some env) false = (env, env)) ∧
    (env.length < 254 → '/' ∈ env →
      setup_login_shell_command pre (some env) true =
        (env, '-' :: shell_basename env)) := by
  refine ⟨rfl, ?_, ?_, ?_⟩
  · intro h
    simp only [setup_login_shell_command, if_pos h]
  · intro h
    have h2 : ¬ 254 ≤ env.length := by omega
    have heq : setup_login_shell_command pre (some env) false =
        if 254 ≤ env.length then ("/bin/sh".data, "-sh".data) else (env, env) := rfl
    rw [heq, if_neg h2]
  · intro h hmem
    have h2 : ¬ 254 ≤ env.length := by omega
    have hscan : ∃ k, shell_basename_start env env.length = some k := by
      cases hs : shell_basename_start env env.length with
      | none => exact absurd ((shell_basename_start_spec env).1 hs) (by simp [hmem])
      | some k => exact ⟨k, rfl⟩
    obtain ⟨k, hk⟩ := hscan
    obtain ⟨_, hdrop⟩ := (shell_basename_start_spec env).2 k hk
    have heq : setup_login_shell_command pre (some env) true =
        if 254 ≤ env.length then ("/bin/sh".data, "-sh".data)
        else
          match shell_basename_start env env.length with
          | some start => (env, '-' :: env.drop start)
          | none =>
              match pre with
              | none => (env, ['-'])
              | some c => (env, '-' :: c :: env) := rfl
    rw [heq, if_neg h2, hk]
    show (env, '-' :: List.drop k env) = (env, '-' :: shell_basename env)
    rw [hdrop]

/-- Claim C9: for every environment value of $SHELL (and every content of
the byte before the shell buffer), both strings the function produces need
at most 255 bytes plus the NUL terminator, so they fit the 256-byte
buffers. -/
theorem setup_login_shell_command_bounded (pre : Option Char)
    (shell_env : Option (List Char)) (login : Bool) :
    (setup_login_shell_command pre shell_env login).1.length ≤ 255 ∧
    (setup_login_shell_command pre shell_env login).2.length ≤ 255 := by
  cases shell_env with
  | none =>
      constructor
      · show ("/bin/sh".data).length ≤ 255
        decide
      · show ("-sh".data).length ≤ 255
        decide
  | some env =>
      have heq : setup_login_shell_command pre (some env) login =
          if 254 ≤ env.length then ("/bin/sh".data, "-sh".data)
          else if login then
            match shell_basename_start env env.length with
            | some start => (env, '-' :: env.drop start)
            | none =>
                match pre with
                | none => (env, ['-'])
                | some c => (env, '-' :: c :: env)
          else (env, env) := rfl
      rw [heq]
      by_cases h : 254 ≤ env.length
      · rw [if_pos h]
        exact ⟨by decide, by decide⟩
      · rw [if_neg h]
        have hlen : env.length ≤ 253 := by omega
        cases login with
        | false =>
            rw [if_neg (by simp)]
            constructor
            · show env.length ≤ 255
              omega
            · show env.length ≤ 255
              omega
        | true =>
            rw [if_pos rfl]
            cases hs : shell_basename_start env env.length with
            | none =>
                cases pre with
                | none =>
                    constructor
                    · show env.length ≤ 255
                      omega
                    · show (['-'] : List Char).length ≤ 255
                      decide
                | some c =>
                    constructor
                    · show env.length ≤ 255
                      omega
                    · show ('-' :: c :: env).length ≤ 255
                      simp only [List.length_cons]
                      omega
            | some k =>
                constructor
                · show env.length ≤ 255
                  omega
                · show ('-' :: env.drop k).length ≤ 255
                  simp only [List.length_cons, List.length_drop]
                  omega

/-! ## Claim C7: update_connections visits records in order and tolerates
partial failure -/

theorem update_go_cons (tb : TokenBits) (cok wok sok : Nat → Bool) (i : Nat)
    (r : conn_addr) (rs : List conn_addr) :
    update_go tb cok wok sok i (r :: rs) =
      if step_ok cok wok sok i = true then
        ((update_go tb cok wok sok (i + 1) rs).1,
          (i, flag_token tb r.token) :: (update_go tb cok wok sok (i + 1) rs).2)
      else (some i, []) := by
  cases hc : cok i <;> cases hw : wok i <;> cases hs : sok i <;>
    simp [update_go, step_ok, hc, hw, hs]

theorem update_go_none_iff (tb : TokenBits) (cok wok sok : Nat → Bool) :
    ∀ (rs : List conn_addr) (i : Nat),
      (update_go tb cok wok sok i rs).1 = none ↔
        ∀ k, k < rs.length → step_ok cok wok sok (i + k) = true := by
  intro rs
  induction rs with
  | nil => intro i; simp [update_go]
  | cons r rs ih =>
      intro i
      rw [update_go_cons]
      by_cases hok : step_ok cok wok sok i = true
      · rw [if_pos hok]
        show (update_go tb cok wok sok (i + 1) rs).1 = none ↔ _
        constructor
        · intro hnone k hk
          cases k with
          | zero => simpa using hok
          | succ k =>
              have hrec := (ih (i + 1)).mp hnone k (by simpa using hk)
              have e : i + (k + 1) = i + 1 + k := by omega
              rwa [e]
        · intro hall
          apply (ih (i + 1)).mpr
          intro k hk
          have := hall (k + 1) (by simpa using Nat.succ_lt_succ hk)
          have e : i + (k + 1) = i + 1 + k := by omega
          rwa [e] at this
      · rw [if_neg hok]
        constructor
        · intro hnone; exact absurd hnone (by simp)
        · intro hall
          exact absurd (by simpa using hall 0 (by simp)) hok

theorem update_go_none_sent (tb : TokenBits) (cok wok sok : Nat → Bool) :
    ∀ (rs : List conn_addr) (i : Nat),
      (update_go tb cok wok sok i rs).1 = none →
      (update_go tb cok wok sok i rs).2 =
        (List.enumFrom i rs).map (fun p => (p.1, flag_token tb p.2.token)) := by
  intro rs
  induction rs with
  | nil => intro i _; rfl
  | cons r rs ih =>
      intro i hnone
      rw [update_go_cons] at hnone ⊢
      by_cases hok : step_ok cok wok sok i = true
      · rw [if_pos hok] at hnone ⊢
        show (i, flag_token tb r.token) :: (update_go tb cok wok sok (i + 1) rs).2 = _
        simp only [List.enumFrom_cons, List.map_cons]
        congr 1
        exact ih (i + 1) hnone
      · rw [if_neg hok] at hnone
        exact absurd hnone (by simp)

theorem update_go_some (tb : TokenBits) (cok wok sok : Nat → Bool) :
    ∀ (rs : List conn_addr) (i j : Nat),
      (update_go tb cok wok sok i rs).1 = some j →
      i ≤ j ∧ j < i + rs.length ∧ step_ok cok wok sok j = false ∧
      (∀ m, i ≤ m → m < j → step_ok cok wok sok m = true) ∧
      (update_go tb cok wok sok i rs).2 =
        (List.enumFrom i (rs.take (j - i))).map
          (fun p => (p.1, flag_token tb p.2.token)) := by
  intro rs
  induction rs with
  | nil => intro i j h; exact absurd h (by simp [update_go])
  | cons r rs ih =>
      intro i j h
      rw [update_go_cons] at h ⊢
      by_cases hok : step_ok cok wok sok i = true
      · rw [if_pos hok] at h ⊢
        have h2 : (update_go tb cok wok sok (i + 1) rs).1 = some j := h
        obtain ⟨ha, hb, hc, hd, he⟩ := ih (i + 1) j h2
        refine ⟨by omega, by simp only [List.length_cons]; omega, hc, ?_, ?_⟩
        · intro m hm1 hm2
          rcases Nat.eq_or_lt_of_le hm1 with hrfl | hlt
          · exact hrfl ▸ hok
          · exact hd m (by omega) hm2
        · show (i, flag_token tb r.token) ::
            (update_go tb cok wok sok (i + 1) rs).2 = _
          rw [he]
          have e : j - i = (j - (i + 1)) + 1 := by omega
          rw [e, List.take_succ_cons]
          simp only [List.enumFrom_cons, List.map_cons]
      · rw [if_neg hok] at h ⊢
        have h2 : (some i : Option Nat) = some j := h
        injection h2 with e
        subst e
        refine ⟨le_refl _, by simp, by simpa using hok, ?_, ?_⟩
        · intro m hm1 hm2
          exact absurd hm2 (by omega)
        · show ([] : List (Nat × connection_token)) = _
          simp

/-- Counterexample to C7 as stated: a fully successful migration of a
one-record table with a changed endpoint path does not unlink the old
path when unlink_at_end is not set, so the old path is not unlinked
merely "when it differs". -/
theorem update_connections_no_unlink_without_flag :
    (update_connections ⟨1, 1, 4, 8⟩ (fun _ => true) (fun _ => true)
        (fun _ => true) [⟨⟨9, (5, 6, 7)⟩, 0, 0⟩] false ['a'] ['b']).failed_at
      = none ∧
    (['a'] : List Char) ≠ ['b'] ∧
    (update_connections ⟨1, 1, 4, 8⟩ (fun _ => true) (fun _ => true)
        (fun _ => true) [⟨⟨9, (5, 6, 7)⟩, 0, 0⟩] false ['a'] ['b']).old_unlinked
      = false := by decide

/-- Claim C7 as amended: update_connections visits records in table order,
delivering to each a fresh channel carrying the flagged copy of that
records token; on the first failing record it stops with -1, so the
records before it were migrated, the records after it were not contacted;
the current sockaddr is overwritten only when every record succeeded, and
the old endpoint path is then unlinked only when unlink_at_end also holds
and the path differs from the new one. -/
theorem update_connections_partial_failure (tb : TokenBits)
    (cok wok sok : Nat → Bool) (records : List conn_addr)
    (unlink_at_end : Bool) (old_addr new_addr : List Char) :
    ((update_connections tb cok wok sok records unlink_at_end old_addr
        new_addr).failed_at = none ↔
      ∀ k, k < records.length → step_ok cok wok sok k = true) ∧
    ((update_connections tb cok wok sok records unlink_at_end old_addr
        new_addr).failed_at = none →
      (update_connections tb cok wok sok records unlink_at_end old_addr
        new_addr).sent =
          (List.enumFrom 0 records).map
            (fun p => (p.1, flag_token tb p.2.token)) ∧
      (update_connections tb cok wok sok records unlink_at_end old_addr
        new_addr).addr_adopted = true ∧
      (update_connections tb cok wok sok records unlink_at_end old_addr
        new_addr).current_addr = new_addr ∧
      (update_connections tb cok wok sok records unlink_at_end old_addr
        new_addr).old_unlinked = (unlink_at_end && (old_addr != new_addr))) ∧
    (∀ j, (update_connections tb cok wok sok records unlink_at_end old_addr
        new_addr).failed_at = some j →
      j < records.length ∧ step_ok cok wok sok j = false ∧
      (∀ m, m < j → step_ok cok wok sok m = true) ∧
      (update_connections tb cok wok sok records unlink_at_end old_addr
        new_addr).sent =
          (List.enumFrom 0 (records.take j)).map
            (fun p => (p.1, flag_token tb p.2.token)) ∧
      (update_connections tb cok wok sok records unlink_at_end old_addr
        new_addr).addr_adopted = false ∧
      (update_connections tb cok wok sok records unlink_at_end old_addr
        new_addr).current_addr = old_addr ∧
      (update_connections tb cok wok sok records unlink_at_end old_addr
        new_addr).old_unlinked = false) := by
  refine ⟨?_, ?_, ?_⟩
  · have := update_go_none_iff tb cok wok sok records 0
    simpa [update_connections] using this
  · intro hnone
    have hn : (update_go tb cok wok sok 0 records).1 = none := by
      simpa [update_connections] using hnone
    refine ⟨?_, ?_, ?_, ?_⟩
    · simpa [update_connections] using update_go_none_sent tb cok wok sok records 0 hn
    · simp [update_connections, hn]
    · simp [update_connections, hn]
    · simp [update_connections, hn]
  · intro j hsome
    have hs : (update_go tb cok wok sok 0 records).1 = some j := by
      simpa [update_connections] using hsome
    obtain ⟨ha, hb, hc, hd, he⟩ := update_go_some tb cok wok sok records 0 j hs
    refine ⟨by omega, hc, ?_, ?_, ?_, ?_, ?_⟩
    · intro m hm
      exact hd m (Nat.zero_le m) hm
    · simpa [update_connections] using he
    · simp [update_connections, hs]
    · simp [update_connections, hs]
    · simp [update_connections, hs]

/-! ## Claim C3: the five-pass mirror test -/

theorem test_mirror_loop_iff (uf mo : Nat → Bool) :
    ∀ (n i : Nat), test_mirror_loop uf mo i n = true ↔
      ∀ k, k < n → ((i + k ≠ 0 → uf (i + k) = false) ∧ mo (i + k) = true) := by
  intro n
  induction n with
  | zero => intro i; simp [test_mirror_loop]
  | succ n ih =>
      intro i
      have e : test_mirror_loop uf mo i (n + 1) =
          if (i != 0) && uf i then false
          else if mo i then test_mirror_loop uf mo (i + 1) n else false := rfl
      rw [e]
      by_cases h1 : ((i != 0) && uf i) = true
      · rw [if_pos h1]
        constructor
        · intro hf; exact absurd hf (by simp)
        · intro hall
          obtain ⟨hu, hm⟩ := hall 0 (by omega)
          simp only [Nat.add_zero] at hu hm
          rcases Bool.and_eq_true_iff.mp h1 with ⟨hi, hufi⟩
          have hne : i ≠ 0 := by simpa using hi
          simp [hu hne] at hufi
      · rw [if_neg h1]
        by_cases h2 : mo i = true
        · rw [if_pos h2, ih (i + 1)]
          constructor
          · intro hall k hk
            cases k with
            | zero =>
                refine ⟨?_, by simpa using h2⟩
                intro hne
                simp only [Nat.add_zero] at hne ⊢
                by_cases hui : uf i = true
                · exact absurd (Bool.and_eq_true_iff.mpr
                    ⟨by simpa [bne_iff_ne] using hne, hui⟩) h1
                · simpa using hui
            | succ k =>
                have := hall k (by omega)
                have e2 : i + 1 + k = i + (k + 1) := by omega
                rwa [e2] at this
          · intro hall k hk
            have := hall (k + 1) (by omega)
            have e2 : i + (k + 1) = i + 1 + k := by omega
            rwa [e2] at this
        · rw [if_neg h2]
          constructor
          · intro hf; exact absurd hf (by simp)
          · intro hall
            obtain ⟨_, hm⟩ := hall 0 (by omega)
            simp only [Nat.add_zero] at hm
            exact absurd hm h2

/-- Counterexample to C3 as stated: pass 1 has an odd index yet runs
forward, and pass 2 (even) is the one that runs in reverse. -/
theorem test_mirror_pass1_forward :
    pass_forward 1 = true ∧ 1 % 2 = 1 ∧ pass_forward 2 = false := by decide

/-- Claim C3 as amended: pass 0 is whole-object and forward; for passes 1
to 4 the direction is reverse exactly when the index is even; the update
callback is a no-op exactly on the 1-in-11 residue of the rand draw; and
the test passes only if after every one of the five passes the transfer
succeeded and the two resources were found byte-equal. -/
theorem test_mirror_pass_structure :
    (pass_forward 0 = true) ∧
    (∀ sz upd : Nat, pass_ndiff 0 sz upd = sz) ∧
    (∀ i, 1 ≤ i → i ≤ 4 → (pass_forward i = false ↔ i % 2 = 0)) ∧
    (∀ (r0 r1 r2 sz seq : Nat) (data : List Nat),
      r0 % 11 = 0 → update_file r0 r1 r2 sz seq data = (data, 0)) ∧
    ((List.range 11).countP (fun r => r % 11 == 0) = 1) ∧
    (∀ uf mo, test_mirror_passes uf mo = true ↔
      ∀ i, i < 5 → ((i ≠ 0 → uf i = false) ∧ mo i = true)) := by
  refine ⟨rfl, fun sz upd => rfl, ?_, ?_, by decide, ?_⟩
  · intro i h1 h4
    interval_cases i <;> decide
  · intro r0 r1 r2 sz seq data h
    simp [update_file, h]
  · intro uf mo
    have := test_mirror_loop_iff uf mo 5 0
    simpa [test_mirror_passes] using this

/-! ## Claim C8: wait_for_thread_pool -/

theorem wfp_done_iff (s : pool_state) :
    wfp_done s = true ↔ (s.queue_start = s.queue_end ∧ s.queue_in_progress = 0) := by
  constructor
  · intro h
    rcases Bool.and_eq_true_iff.mp h with ⟨h1, h2⟩
    exact ⟨(beq_iff_eq.mp h1).symm, beq_iff_eq.mp h2⟩
  · rintro ⟨h1, h2⟩
    simp [wfp_done, h1, h2]

/-- Claim C8: wait_for_thread_pool returns only when queue_start equals
queue_end and queue_in_progress is zero; each iteration removes at most
one task from the front of the queue, never a TASK_STOP one, and brackets
an inline run by incrementing queue_in_progress before it and decrementing
it afterwards. -/
theorem wait_for_thread_pool_spec :
    (∀ s : pool_state, (wfp_iter s).1 = true ↔
      (s.queue_start = s.queue_end ∧ s.queue_in_progress = 0)) ∧
    (∀ s : pool_state, (wfp_scan s).2 = none → (wfp_scan s).1 = s) ∧
    (∀ (s : pool_state) (t : TaskType), (wfp_scan s).2 = some t →
      t = s.queue s.queue_start ∧ t ≠ TaskType.stop ∧
      s.queue_start < s.queue_end ∧
      (wfp_scan s).1.queue_start = s.queue_start + 1 ∧
      (wfp_scan s).1.queue = s.queue ∧
      (wfp_scan s).1.queue_in_progress = s.queue_in_progress + 1 ∧
      (wfp_run_finish (wfp_scan s).1).queue_in_progress = s.queue_in_progress) ∧
    (∀ (f : Nat → pool_state → pool_state) (fuel : Nat) (s s2 : pool_state),
      wfp_loop f fuel s = some s2 →
      s2.queue_start = s2.queue_end ∧ s2.queue_in_progress = 0) := by
  refine ⟨?_, ?_, ?_, ?_⟩
  · intro s
    show wfp_done s = true ↔ _
    exact wfp_done_iff s
  · intro s h
    unfold wfp_scan at h ⊢
    by_cases h1 : s.queue_start < s.queue_end
    · rw [if_pos h1] at h ⊢
      by_cases h2 : s.queue s.queue_start ≠ TaskType.stop
      · rw [if_pos h2] at h
        exact absurd h (by simp)
      · rw [if_neg h2]
    · rw [if_neg h1]
  · intro s t h
    by_cases h1 : s.queue_start < s.queue_end
    · by_cases h2 : s.queue s.queue_start ≠ TaskType.stop
      · have hscan : wfp_scan s =
            ({ s with
                queue_start := s.queue_start + 1
                queue_in_progress := s.queue_in_progress + 1 },
              some (s.queue s.queue_start)) := by
          unfold wfp_scan
          rw [if_pos h1, if_pos h2]
        rw [hscan] at h
        have h3 : some (s.queue s.queue_start) = some t := h
        injection h3 with h4
        subst h4
        exact ⟨rfl, h2, h1, by simp [hscan], by simp [hscan],
          by simp [hscan], by simp [hscan, wfp_run_finish]⟩
      · have hn : (wfp_scan s).2 = none := by
          unfold wfp_scan
          rw [if_pos h1, if_neg h2]
        rw [hn] at h
        exact Option.noConfusion h
    · have hn : (wfp_scan s).2 = none := by
        unfold wfp_scan
        rw [if_neg h1]
      rw [hn] at h
      exact Option.noConfusion h
  · intro f fuel
    induction fuel with
    | zero => intro s s2 h; exact Option.noConfusion h
    | succ n ih =>
        intro s s2 h
        have e : wfp_loop f (n + 1) s =
            if (wfp_iter (f n s)).1 = true then some (f n s)
            else wfp_loop f n (wfp_iter (f n s)).2 := rfl
        rw [e] at h
        by_cases hd : (wfp_iter (f n s)).1 = true
        · rw [if_pos hd] at h
          injection h with h2
          subst h2
          have hd2 : wfp_done (f n s) = true := hd
          exact (wfp_done_iff _).mp hd2
        · rw [if_neg hd] at h
          exact ih _ _ h

/-! ## Claim C10: no connection record without a control pipe -/

/-- Claim C10: when no control pipe is configured (reconnectable = false),
handle_new_server_connection never creates a link socketpair and leaves
the connection table unchanged, whatever the outcomes of the fallible
steps; in particular a table that starts empty stays at count zero. -/
theorem handle_new_server_connection_no_control_pipe
    (alloc_ok connect_ok write_ok socketpair_ok fork_ok : Bool)
    (connmap : List conn_addr) (new_token : connection_token)
    (npid linkfd : Nat) :
    (handle_new_server_connection false alloc_ok connect_ok write_ok
      socketpair_ok fork_ok connmap new_token npid linkfd).connmap = connmap ∧
    (handle_new_server_connection false alloc_ok connect_ok write_ok
      socketpair_ok fork_ok connmap new_token npid linkfd).socketpair_created
        = false ∧
    (handle_new_server_connection false alloc_ok connect_ok write_ok
      socketpair_ok fork_ok connmap new_token npid linkfd).connmap.length
        = connmap.length := by
  unfold handle_new_server_connection
  cases connect_ok <;> cases write_ok <;> cases fork_ok <;> simp

end Waypipe
